import Mathlib

/-!
# Persistence mapping layer of `store/mysql/models.go`

A shallow embedding of the row mappers (`newTx`, `loadTx`, `newBlock`,
`block2Summary`, `loadBlock`, `newLog`), of the short-key derivation
`hash2ShortId` and of the strict JSON helpers, followed by the properties
proved about them.

Conventions of the embedding:

* a Go `string` and a Go `[]byte` are lists of bytes (`Fin 256`); a nil slice
  and an empty slice are both the empty list (the code only takes `len`);
* a `uint64` is a natural number below `2 ^ 64`; arithmetic that can wrap is
  written with an explicit `% 2 ^ 64`;
* a function that can end the process (a run-time panic, or `logrus.Fatalf`,
  which exits) returns in `Run`, an `Except` over the way it aborted;
* a Go result pair `(*T, error)` is a pair of options.
-/

namespace Confura

/-! ## Bytes and strings -/

/-- A byte. -/
abbrev Byte := Fin 256

/-- A Go `string`: an immutable sequence of bytes. -/
abbrev GoString := List Byte

/-- A Go `[]byte`. -/
abbrev Bytes := List Byte

/-- The bytes of an ASCII literal; only used to write concrete inputs. -/
def ascii (s : String) : GoString := s.toList.map (fun c => Fin.ofNat c.toNat)

/-! ## Ways of not returning -/

/-- How a call ends the process instead of returning. -/
inductive Abort where
  /-- Run-time panic: slice bounds out of range. -/
  | sliceBounds
  /-- Run-time panic: index out of range. -/
  | indexOutOfRange
  /-- Run-time panic: nil pointer dereference. -/
  | nilDereference
  /-- Panic raised by `MustGetBase32Address`. -/
  | addressPanic
  /-- The call `logrus ... Fatalf`, which logs and exits the process. -/
  | fatal
  deriving DecidableEq, Repr

/-- A computation that either returns a value or aborts the process. -/
abbrev Run (α : Type) := Except Abort α

/-! ## `strconv.ParseUint(s, 16, 64)` -/

/-- The error kinds of `strconv.ParseUint`. -/
inductive NumError where
  | ErrSyntax
  | ErrRange
  deriving DecidableEq, Repr

/-- The largest `uint64`. -/
def maxUint64 : Nat := 2 ^ 64 - 1

/-- ASCII lower-casing used by `strconv`: `c | ('x' - 'X')`. -/
def lower (c : Byte) : Byte := c ||| 0x20

/-- The digit value `strconv.ParseUint` assigns to a byte, before the
comparison with the base; `none` is the `default` branch of its switch. -/
def digitOf (c : Byte) : Option Byte :=
  if 0x30 ≤ c ∧ c ≤ 0x39 then some (c - 0x30)
  else if 0x61 ≤ lower c ∧ lower c ≤ 0x7a then some (lower c - 0x61 + 10)
  else none

/-- The digit loop of `strconv.ParseUint` for base 16 and bit size 64, where
`cutoff = maxUint64/16 + 1` and `maxVal = 1<<64 - 1 = maxUint64`; `n` is the
accumulator. The result is the Go pair `(value, err)`. -/
def parseUintLoop : List Byte → Nat → Nat × Option NumError
  | [], n => (n, none)
  | c :: cs, n =>
    match digitOf c with
    | none => (0, some .ErrSyntax)
    | some d =>
      if d ≥ 16 then (0, some .ErrSyntax)
      else if n ≥ maxUint64 / 16 + 1 then (maxUint64, some .ErrRange)
      else
        let n16 := n * 16 % 2 ^ 64
        let n1 := (n16 + d.val) % 2 ^ 64
        if n1 < n16 ∨ n1 > maxUint64 then (maxUint64, some .ErrRange)
        else parseUintLoop cs n1

/-- The call `strconv.ParseUint(s, 16, 64)`: no sign, no base prefix and no
underscore is accepted for an explicit base; the empty string is a syntax
error. -/
def parseUintHex64 (s : GoString) : Nat × Option NumError :=
  if s = [] then (0, some .ErrSyntax) else parseUintLoop s 0

/-! ## Short-key derivation -/

/-- The function `hash2ShortId`: parses `hash[2:18]` as a base-16 `uint64`.
The slice expression panics when `len(hash) < 18`; a parse error is fatal. -/
def hash2ShortId (hash : GoString) : Run Nat :=
  if hash.length < 18 then .error .sliceBounds
  else
    match parseUintHex64 ((hash.drop 2).take 16) with
    | (id, none) => .ok id
    | (_, some _) => .error .fatal

/-! ## Words of the specification about hashes -/

/-- A hexadecimal digit, in either case. -/
def isHexDigit (c : Byte) : Bool :=
  (0x30 ≤ c && c ≤ 0x39) || (0x61 ≤ c && c ≤ 0x66) || (0x41 ≤ c && c ≤ 0x46)

/-- Value of a hexadecimal digit (0 for any other byte). -/
def hexDigitValue (c : Byte) : Nat :=
  if 0x30 ≤ c ∧ c ≤ 0x39 then c.val - 0x30
  else if 0x61 ≤ c ∧ c ≤ 0x66 then c.val - 0x61 + 10
  else if 0x41 ≤ c ∧ c ≤ 0x46 then c.val - 0x41 + 10
  else 0

/-- Base-16 value of a digit string, most significant digit first, as an
unbounded natural number. -/
def hexValue (s : List Byte) : Nat :=
  s.foldl (fun n c => 16 * n + hexDigitValue c) 0

/-- The sixteen bytes at positions 2..17 of a hash string. -/
def window (hash : GoString) : List Byte := (hash.drop 2).take 16

/-- A canonical hash: `0x` followed by 64 hexadecimal digits. -/
def isCanonicalHash (h : GoString) : Bool :=
  h.length == 66 && h.take 2 == ascii "0x" && (h.drop 2).all isHexDigit

/-- Lower-casing of the letters `A`..`F`; every other byte is kept. Two
strings are equal ignoring the case of the letters a-f when they are equal
after this map. -/
def lowerHex (c : Byte) : Byte := if 0x41 ≤ c ∧ c ≤ 0x46 then c + 0x20 else c

/-- The lower-case hexadecimal digit that stands for a value below 16. -/
def hexDigitChar (v : Nat) : Byte :=
  if v < 10 then Fin.ofNat (0x30 + v) else Fin.ofNat (0x61 + (v - 10))

/-! ## Pointers and the domain objects of the SDK -/

/-- A Go pointer: `none` is the nil pointer. -/
abbrev Ptr (α : Type) := Option α

/-- Reading through a pointer; a nil pointer panics. -/
def deref {α : Type} (p : Ptr α) : Run α :=
  match p with
  | some a => .ok a
  | none => .error .nilDereference

/-- Modelled from the spec: the SDK type `types.Hash`, a string type. -/
abbrev Hash := GoString

/-- Modelled from the spec: the method `Hash.String()`, which converts the
hash to a plain string without changing a byte. -/
def Hash.String (h : Hash) : GoString := h

/-- Modelled from the spec: the method `(*big.Int).Uint64()` behind
`x.ToInt().Uint64()`: the low 64 bits of the absolute value. -/
def bigToUint64 (x : Int) : Nat := x.natAbs % 2 ^ 64

/-- An integer that a `uint64` can hold. -/
def fitsUint64 (x : Int) : Bool := decide (0 ≤ x) && decide (x < 2 ^ 64)

/-- Modelled from the spec: the SDK type `types.Transaction`: the hash the
code reads, and the remaining fields, which the code only passes to the
encoder. -/
structure Transaction (R : Type) where
  Hash : Hash
  Rest : R

/-- Modelled from the spec: the SDK type `types.TransactionReceipt`: the
epoch number (a pointer to a `uint64`, which the code dereferences) and the
remaining fields. -/
structure TransactionReceipt (R : Type) where
  EpochNumber : Ptr Nat
  Rest : R

/-- Modelled from the spec: the SDK type `types.BlockHeader`: the hash and
the epoch number the code reads, and the remaining header fields. -/
structure BlockHeader (H : Type) where
  Hash : Hash
  EpochNumber : Int
  Rest : H

/-- Modelled from the spec: the SDK type `types.Block`: a header and the
ordered transaction bodies. -/
structure Block (H R : Type) where
  BlockHeader : BlockHeader H
  Transactions : List (Transaction R)

/-- Modelled from the spec: the SDK type `types.BlockSummary`: a header and
the ordered transaction hashes. -/
structure BlockSummary (H : Type) where
  BlockHeader : BlockHeader H
  Transactions : List Hash

/-- Modelled from the spec: the SDK type `types.Log`, with an address of
some type `A`, the topic list, the payload and the position fields. -/
structure Log (A : Type) where
  Address : A
  Topics : List Hash
  Data : Bytes
  BlockHash : Hash
  EpochNumber : Int
  TransactionHash : Hash
  TransactionIndex : Int
  LogIndex : Int
  TransactionLogIndex : Int

/-! ## Strict serialization -/

/-- An error returned by `json.Marshal` or `json.Unmarshal`. -/
inductive JSONError where
  | marshalError
  | unmarshalError
  deriving DecidableEq, Repr

/-- The function `mustMarshalJSON`. Its argument is an `interface{}`: `none`
is the nil interface, `some a` an interface holding the dynamic value `a`
(a pointer in every call of this file). The encoder `json.Marshal` for that
dynamic type is the parameter `jsonMarshal`. -/
def mustMarshalJSON {α : Type} (jsonMarshal : α → Except JSONError Bytes)
    (v : Option α) : Run Bytes :=
  match v with
  | none => .ok []
  | some a =>
    match jsonMarshal a with
    | .ok data => .ok data
    | .error _ => .error .fatal

/-- The function `mustUnmarshalJSON`: `json.Unmarshal(data, v)` updates the
target `v` points to; the decoder for the target type is the parameter
`jsonUnmarshal`, which receives the bytes and the current target. -/
def mustUnmarshalJSON {α : Type} (jsonUnmarshal : Bytes → α → Except JSONError α)
    (data : Bytes) (v : α) : Run α :=
  match jsonUnmarshal data v with
  | .ok a => .ok a
  | .error _ => .error .fatal

/-! ## The relational store -/

/-- An error carried by a store handle. -/
inductive GormError where
  | ErrRecordNotFound
  deriving DecidableEq, Repr

/-- Modelled from the spec: the relational store client, seen from one table.
`rows` is the content of the table in ascending primary-key order, `search`
the conjunction of the `Where` conditions chained so far, `Error` the error
the handle carries. -/
structure DB (ρ : Type) where
  rows : List ρ
  search : ρ → Bool
  Error : Option GormError

/-- Modelled from the spec: a fresh handle on a table. -/
def DB.ofRows {ρ : Type} (rows : List ρ) : DB ρ :=
  { rows := rows, search := fun _ => true, Error := none }

/-- Modelled from the spec: `db.Where(clause, args...)`; the clause with its
arguments bound is the predicate `cond`, and SQL `=` is exact equality. -/
def DB.Where {ρ : Type} (db : DB ρ) (cond : ρ → Bool) : DB ρ :=
  { db with search := fun r => db.search r && cond r }

/-- Modelled from the spec: `db.First(&out)`, the point query: the first row
in primary-key order that satisfies the conditions is read into `out`; with
no such row `out` is left as it was and the handle carries
`ErrRecordNotFound`. A handle that already carries an error runs no query. -/
def DB.First {ρ : Type} (db : DB ρ) (out : ρ) : DB ρ × ρ :=
  match db.Error with
  | some _ => (db, out)
  | none =>
    match db.rows.find? db.search with
    | some r => (db, r)
    | none => ({ db with Error := some .ErrRecordNotFound }, out)

/-- Modelled from the spec: `db.Scan(&out)` on the handle `First` returned:
a handle that carries an error runs no query and keeps its error; otherwise
the selected row is read again into `out`. -/
def DB.Scan {ρ : Type} (db : DB ρ) (out : ρ) : DB ρ × ρ :=
  match db.Error with
  | some _ => (db, out)
  | none =>
    match db.rows.find? db.search with
    | some r => (db, r)
    | none => ({ db with Error := some .ErrRecordNotFound }, out)

/-- Modelled from the spec: insert-one(row): the row is appended to the table
and is read back unchanged. -/
def DB.Create {ρ : Type} (db : DB ρ) (row : ρ) : DB ρ :=
  { db with rows := db.rows ++ [row] }

/-! ## Transaction mapper -/

/-- The row type `transaction` of table `txs`. -/
structure transaction where
  ID : Nat
  Epoch : Nat
  HashId : Nat
  Hash : GoString
  TxRawData : Bytes
  TxRawDataLen : Nat
  ReceiptRawData : Bytes
  ReceiptRawDataLen : Nat
  deriving DecidableEq, Repr

/-- The zero value of `transaction` (`var tx transaction`). -/
def transaction.zero : transaction :=
  { ID := 0, Epoch := 0, HashId := 0, Hash := [], TxRawData := [],
    TxRawDataLen := 0, ReceiptRawData := [], ReceiptRawDataLen := 0 }

/-- The function `newTx`. The composite literal is evaluated field by field in
source order; `len` of a slice fits an `int`, so `uint64(len(..))` is the
length itself. -/
def newTx {R S : Type}
    (jsonMarshalTx : Ptr (Transaction R) → Except JSONError Bytes)
    (jsonMarshalReceipt : Ptr (TransactionReceipt S) → Except JSONError Bytes)
    (tx : Ptr (Transaction R)) (receipt : Ptr (TransactionReceipt S)) :
    Run transaction := do
  let rcpt ← deref receipt
  let epoch ← deref rcpt.EpochNumber
  let t ← deref tx
  let txRaw ← mustMarshalJSON jsonMarshalTx (some tx)
  let receiptRaw ← mustMarshalJSON jsonMarshalReceipt (some receipt)
  let result : transaction :=
    { transaction.zero with
      Epoch := epoch, Hash := t.Hash.String,
      TxRawData := txRaw, ReceiptRawData := receiptRaw }
  let hashId ← hash2ShortId result.Hash
  let result := { result with HashId := hashId }
  let result := { result with TxRawDataLen := result.TxRawData.length }
  let result := { result with ReceiptRawDataLen := result.ReceiptRawData.length }
  return result

/-- The function `loadTx`: the Go result pair `(*transaction, error)`. -/
def loadTx (db : DB transaction) (txHash : GoString) :
    Run (Option transaction × Option GormError) := do
  let hashId ← hash2ShortId txHash
  let tx := transaction.zero
  let (db, tx) := (db.Where (fun r => r.HashId == hashId && r.Hash == txHash)).First tx
  let (db, tx) := db.Scan tx
  match db.Error with
  | some err => return (none, some err)
  | none => return (some tx, none)

/-! ## Block mapper -/

/-- The row type `block`. -/
structure block where
  ID : Nat
  Epoch : Nat
  HashId : Nat
  Hash : GoString
  Pivot : Bool
  RawData : Bytes
  RawDataLen : Nat
  deriving DecidableEq, Repr

/-- The zero value of `block` (`var blk block`). -/
def block.zero : block :=
  { ID := 0, Epoch := 0, HashId := 0, Hash := [], Pivot := false,
    RawData := [], RawDataLen := 0 }

/-- The zero value of `types.BlockSummary` for a header whose zero value is
`zeroRest` in its remaining fields (`var summary types.BlockSummary`). -/
def BlockSummary.zero {H : Type} (zeroRest : H) : BlockSummary H :=
  { BlockHeader := { Hash := [], EpochNumber := 0, Rest := zeroRest },
    Transactions := [] }

/-- The function `block2Summary`: the header is copied and the loop appends
the hash of every transaction in order. -/
def block2Summary {H R : Type} (blk : Ptr (Block H R)) : Run (BlockSummary H) := do
  let b ← deref blk
  let summary : BlockSummary H :=
    { BlockHeader := b.BlockHeader, Transactions := [] }
  let summary := b.Transactions.foldl
    (fun (s : BlockSummary H) tx => { s with Transactions := s.Transactions ++ [tx.Hash] })
    summary
  return summary

/-- The function `newBlock`. -/
def newBlock {H R : Type}
    (jsonMarshalSummary : Ptr (BlockSummary H) → Except JSONError Bytes)
    (data : Ptr (Block H R)) (pivot : Bool) : Run block := do
  let d ← deref data
  let summary ← block2Summary data
  let raw ← mustMarshalJSON jsonMarshalSummary (some (some summary))
  let blk : block :=
    { block.zero with
      Epoch := bigToUint64 d.BlockHeader.EpochNumber,
      Hash := d.BlockHeader.Hash.String,
      Pivot := pivot, RawData := raw }
  let hashId ← hash2ShortId blk.Hash
  let blk := { blk with HashId := hashId }
  let blk := { blk with RawDataLen := blk.RawData.length }
  return blk

/-- The function `loadBlock`; `cond` is the meaning of `whereClause` with
`args` bound, `zeroRest` the zero value of the remaining header fields. -/
def loadBlock {H : Type}
    (jsonUnmarshalSummary : Bytes → BlockSummary H → Except JSONError (BlockSummary H))
    (zeroRest : H) (db : DB block) (cond : block → Bool) :
    Run (Option (BlockSummary H) × Option GormError) := do
  let blk := block.zero
  let (db, blk) := (db.Where cond).First blk
  let (db, blk) := db.Scan blk
  match db.Error with
  | some err => return (none, some err)
  | none =>
    let summary ← mustUnmarshalJSON jsonUnmarshalSummary blk.RawData
      (BlockSummary.zero zeroRest)
    return (some summary, none)

/-! ## Log mapper -/

/-- The row type `log`. -/
structure log where
  ID : Nat
  Epoch : Nat
  BlockHash : GoString
  ContractAddress : GoString
  Topic0 : GoString
  Topic1 : GoString
  Topic2 : GoString
  Topic3 : GoString
  Data : Bytes
  DataLen : Nat
  TxHash : GoString
  TxIndex : Nat
  TxLogIndex : Nat
  LogIndex : Nat
  deriving DecidableEq, Repr

/-- The zero value of `log`. -/
def log.zero : log :=
  { ID := 0, Epoch := 0, BlockHash := [], ContractAddress := [], Topic0 := [],
    Topic1 := [], Topic2 := [], Topic3 := [], Data := [], DataLen := 0,
    TxHash := [], TxIndex := 0, TxLogIndex := 0, LogIndex := 0 }

/-- The index expression `xs[i]`, which panics when `i` is out of range. -/
def index {α : Type} (xs : List α) (i : Nat) : Run α :=
  match xs[i]? with
  | some a => .ok a
  | none => .error .indexOutOfRange

/-- The function `newLog`. The parameter `mustGetBase32Address` is the SDK
method of that name, `none` when it panics. -/
def newLog {A : Type} (mustGetBase32Address : A → Option GoString)
    (data : Ptr (Log A)) : Run log := do
  let d ← deref data
  let contractAddress ←
    match mustGetBase32Address d.Address with
    | some a => pure a
    | none => throw Abort.addressPanic
  let topic0 ← index d.Topics 0
  let l : log :=
    { log.zero with
      Epoch := bigToUint64 d.EpochNumber,
      BlockHash := d.BlockHash.String,
      ContractAddress := contractAddress,
      Data := d.Data,
      Topic0 := topic0.String,
      TxHash := d.TransactionHash.String,
      TxIndex := bigToUint64 d.TransactionIndex,
      TxLogIndex := bigToUint64 d.TransactionLogIndex,
      LogIndex := bigToUint64 d.LogIndex }
  let l := { l with DataLen := l.Data.length }
  let numTopics := d.Topics.length
  let l ← if numTopics > 1 then do
      let t ← index d.Topics 1
      pure { l with Topic1 := t.String }
    else pure l
  let l ← if numTopics > 2 then do
      let t ← index d.Topics 2
      pure { l with Topic2 := t.String }
    else pure l
  let l ← if numTopics > 3 then do
      let t ← index d.Topics 3
      pure { l with Topic3 := t.String }
    else pure l
  return l

/-! ## Concrete inputs used in the examples -/

/-- A transaction whose hash is `0x` followed by 64 letters `a`. -/
def sampleTx : Transaction Unit :=
  { Hash := ascii "0x" ++ List.replicate 64 0x61, Rest := () }

/-- A receipt of epoch 100. -/
def sampleReceipt : TransactionReceipt Unit :=
  { EpochNumber := some 100, Rest := () }

/-- An encoder for the examples: a nil pointer gives `null`, as it does with
`json.Marshal`, any value the bytes of `tx`. -/
def sampleMarshal {α : Type} (p : Ptr α) : Except JSONError Bytes :=
  match p with
  | none => .ok (ascii "null")
  | some _ => .ok (ascii "tx")

/-- The record `newTx` builds from the sample pair. -/
def sampleRow : transaction :=
  { ID := 0, Epoch := 100, HashId := 0xaaaaaaaaaaaaaaaa, Hash := sampleTx.Hash,
    TxRawData := ascii "tx", TxRawDataLen := 2,
    ReceiptRawData := ascii "tx", ReceiptRawDataLen := 2 }

/-- A row whose short key is that of `sampleRow` and whose hash differs from
it in the last byte. -/
def collidingRow : transaction :=
  { sampleRow with
    Epoch := 7, Hash := ascii "0x" ++ List.replicate 63 0x61 ++ [0x62] }

/-- A decoder for the examples that rejects every input. -/
def sampleUnmarshalFail (_ : Bytes) (_ : BlockSummary Unit) :
    Except JSONError (BlockSummary Unit) :=
  .error .unmarshalError

/-- An address conversion for the examples: the address is already in its
base32 form. -/
def sampleBase32 (a : GoString) : Option GoString := some a

/-- A log with the given topics. -/
def sampleLog (topics : List Hash) : Log GoString :=
  { Address := ascii "cfx:type.contract:acc7uawf5ubtnmezvhu9dhc6sghea0403y2dgpyfjp",
    Topics := topics, Data := [1, 2, 3],
    BlockHash := ascii "0xb1", EpochNumber := 100, TransactionHash := ascii "0xc1",
    TransactionIndex := 1, LogIndex := 3, TransactionLogIndex := 2 }

/-- A block of the given epoch number that holds the sample transaction. -/
def sampleBlock (epoch : Int) : Block Unit Unit :=
  { BlockHeader := { Hash := sampleTx.Hash, EpochNumber := epoch, Rest := () },
    Transactions := [sampleTx] }

/-- A log with one topic whose transaction index does not fit 64 bits. -/
def oversizedLog : Log GoString :=
  { sampleLog [ascii "0xa0"] with TransactionIndex := 2 ^ 64 + 5 }

/-- A hash that differs from the sample hash in its first two bytes, in the
case of its letters and in what follows position 17. -/
def upperCaseHash : GoString :=
  ascii "0X" ++ List.replicate 16 0x41 ++ ascii "zz"

/-- A string that agrees with the sample hash at the positions 2..17 and
differs from it in its first two bytes and after position 17. -/
def otherPrefixHash : GoString :=
  ascii "ZZ" ++ List.replicate 16 0x61 ++ ascii "!!"

/-- A row stored earlier for the sample hash, under primary key 1 and at
epoch 7. -/
def staleRow : transaction :=
  { sampleRow with ID := 1, Epoch := 7 }

/-- An encoder for the examples that rejects every value. -/
def failingMarshal {α : Type} (_ : α) : Except JSONError Bytes :=
  .error .marshalError

/-- An address conversion for the examples that panics on every address. -/
def failingBase32 (_ : GoString) : Option GoString := none

/-! ## Facts about the digit loop -/

set_option maxRecDepth 100000 in
/-- On a hexadecimal digit the parser's digit is below the base and is the
digit's value. -/
theorem digitOf_of_isHexDigit :
    ∀ c : Byte, isHexDigit c = true →
      ∃ d : Byte, digitOf c = some d ∧ d < 16 ∧ d.val = hexDigitValue c := by
  decide

set_option maxRecDepth 100000 in
/-- On any other byte the parser finds no digit, or one that is not below 16. -/
theorem digitOf_of_not_isHexDigit :
    ∀ c : Byte, isHexDigit c = false →
      digitOf c = none ∨ ∃ d : Byte, digitOf c = some d ∧ 16 ≤ d := by
  decide

set_option maxRecDepth 100000 in
theorem hexDigitValue_lt : ∀ c : Byte, hexDigitValue c < 16 := by
  decide

/-- The accumulator only grows along the fold. -/
theorem le_foldl_hex (s : List Byte) (n : Nat) :
    n ≤ s.foldl (fun n c => 16 * n + hexDigitValue c) n := by
  induction s generalizing n with
  | nil => simp
  | cons c cs ih =>
    simp only [List.foldl_cons]
    exact le_trans (by omega) (ih _)

/-- A fold over `k` digits from `n` stays below `(n + 1) * 16 ^ k`. -/
theorem foldl_hex_lt (s : List Byte) (n : Nat) :
    s.foldl (fun n c => 16 * n + hexDigitValue c) n < (n + 1) * 16 ^ s.length := by
  induction s generalizing n with
  | nil => simp
  | cons c cs ih =>
    simp only [List.foldl_cons, List.length_cons]
    have h1 := ih (16 * n + hexDigitValue c)
    have h2 := hexDigitValue_lt c
    have h3 : (16 * n + hexDigitValue c + 1) * 16 ^ cs.length ≤ (n + 1) * 16 ^ (cs.length + 1) := by
      rw [pow_succ]
      have : 16 * n + hexDigitValue c + 1 ≤ (n + 1) * 16 := by omega
      calc (16 * n + hexDigitValue c + 1) * 16 ^ cs.length
          ≤ ((n + 1) * 16) * 16 ^ cs.length := Nat.mul_le_mul_right _ this
        _ = (n + 1) * (16 ^ cs.length * 16) := by ring
    omega

theorem hexValue_lt (s : List Byte) (h : s.length ≤ 16) : hexValue s < 2 ^ 64 := by
  have h1 := foldl_hex_lt s 0
  have h2 : 16 ^ s.length ≤ 16 ^ 16 := Nat.pow_le_pow_right (by norm_num) h
  have h3 : (16 : Nat) ^ 16 = 2 ^ 64 := by norm_num
  unfold hexValue
  omega

/-- On hexadecimal digits whose value fits 64 bits the loop returns that
value and no error. -/
theorem parseUintLoop_hex (s : List Byte) (n : Nat)
    (hs : ∀ c ∈ s, isHexDigit c = true)
    (hfit : s.foldl (fun n c => 16 * n + hexDigitValue c) n < 2 ^ 64) :
    parseUintLoop s n = (s.foldl (fun n c => 16 * n + hexDigitValue c) n, none) := by
  induction s generalizing n with
  | nil => simp [parseUintLoop]
  | cons c cs ih =>
    obtain ⟨d, hd, hd16, hdv⟩ := digitOf_of_isHexDigit c (hs c (List.mem_cons_self _ _))
    simp only [List.foldl_cons] at hfit ⊢
    have hle := le_foldl_hex cs (16 * n + hexDigitValue c)
    have hdl := hexDigitValue_lt c
    have hn : 16 * n + hexDigitValue c < 2 ^ 64 := lt_of_le_of_lt hle hfit
    have e1 : n * 16 % 2 ^ 64 = 16 * n := by
      rw [Nat.mod_eq_of_lt (by omega)]; omega
    have e2 : (16 * n + d.val) % 2 ^ 64 = 16 * n + hexDigitValue c := by
      rw [hdv, Nat.mod_eq_of_lt hn]
    have hcut : ¬ (n ≥ maxUint64 / 16 + 1) := by
      simp only [maxUint64]; omega
    have hnd : ¬ (d ≥ 16) := not_le.mpr hd16
    have hov : ¬ (16 * n + hexDigitValue c < 16 * n ∨ 16 * n + hexDigitValue c > maxUint64) := by
      simp only [maxUint64]; omega
    rw [parseUintLoop, hd]
    simp only [hnd, hcut, e1, e2, hov, if_false]
    exact ih _ (fun c hc => hs c (List.mem_cons_of_mem _ hc)) hfit

/-- A byte that is no hexadecimal digit makes the loop return an error. -/
theorem parseUintLoop_bad (s : List Byte) (n : Nat)
    (hs : ∃ c ∈ s, isHexDigit c = false) :
    ∃ v e, parseUintLoop s n = (v, some e) := by
  induction s generalizing n with
  | nil => simp at hs
  | cons c cs ih =>
    rw [parseUintLoop]
    cases hc : isHexDigit c with
    | false =>
      rcases digitOf_of_not_isHexDigit c hc with h | ⟨d, h, hd⟩
      · simp [h]
      · simp [h, hd]
    | true =>
      have htl : ∃ c ∈ cs, isHexDigit c = false := by
        obtain ⟨x, hx, hxb⟩ := hs
        rcases List.mem_cons.mp hx with rfl | hx
        · rw [hc] at hxb; cases hxb
        · exact ⟨x, hx, hxb⟩
      cases hd : digitOf c with
      | none => simp
      | some d =>
        simp only
        split_ifs
        · exact ⟨_, _, rfl⟩
        · exact ⟨_, _, rfl⟩
        · exact ⟨_, _, rfl⟩
        · exact ih _ htl

/-- Membership in the window, by position. -/
theorem mem_window_iff (hash : GoString) (c : Byte) :
    c ∈ window hash ↔ ∃ i, 2 ≤ i ∧ i < 18 ∧ hash[i]? = some c := by
  unfold window
  rw [List.mem_iff_getElem?]
  constructor
  · rintro ⟨j, hj⟩
    rw [List.getElem?_take] at hj
    split_ifs at hj with h
    · rw [List.getElem?_drop] at hj
      exact ⟨2 + j, by omega, by omega, hj⟩
  · rintro ⟨i, h2, h18, hi⟩
    refine ⟨i - 2, ?_⟩
    rw [List.getElem?_take, if_pos (by omega), List.getElem?_drop]
    rw [show 2 + (i - 2) = i by omega]
    exact hi

theorem window_length (hash : GoString) (h : 18 ≤ hash.length) :
    (window hash).length = 16 := by
  unfold window
  simp
  omega

theorem getElem_mem_window (hash : GoString) (i : Nat) (hi : i < hash.length)
    (h2 : 2 ≤ i) (h17 : i ≤ 17) : hash[i] ∈ window hash :=
  (mem_window_iff hash hash[i]).mpr ⟨i, h2, by omega, List.getElem?_eq_getElem hi⟩

theorem window_ne_nil (hash : GoString) (h : 18 ≤ hash.length) : window hash ≠ [] := by
  intro h0
  have := window_length hash h
  rw [h0] at this
  simp at this

/-- On a window of hexadecimal digits `hash2ShortId` returns their value. -/
theorem hash2ShortId_of_window (hash : GoString) (hlen : 18 ≤ hash.length)
    (hall : ∀ c ∈ window hash, isHexDigit c = true) :
    hash2ShortId hash = .ok (hexValue (window hash)) := by
  have hfit : hexValue (window hash) < 2 ^ 64 :=
    hexValue_lt _ (le_of_eq (window_length hash hlen))
  have hloop := parseUintLoop_hex (window hash) 0 hall hfit
  have hne := window_ne_nil hash hlen
  unfold hash2ShortId parseUintHex64
  rw [if_neg (by omega)]
  change (match (if window hash = [] then _ else parseUintLoop (window hash) 0) with
    | (id, none) => Except.ok id
    | (_, some _) => Except.error Abort.fatal) = _
  rw [if_neg hne, hloop]
  rfl

/-- A canonical hash has a short key. -/
theorem hash2ShortId_of_canonical (h : GoString) (hc : isCanonicalHash h = true) :
    hash2ShortId h = .ok (hexValue (window h)) := by
  simp only [isCanonicalHash, Bool.and_eq_true, beq_iff_eq, List.all_eq_true] at hc
  obtain ⟨⟨hlen, -⟩, hall⟩ := hc
  refine hash2ShortId_of_window h (by omega) ?_
  intro c hcw
  exact hall c (List.mem_of_mem_take hcw)

/-! ## Facts about the mappers and the store -/

/-- What `newTx` computes when it returns, and the conditions under which it
returns. -/
theorem newTx_eq_ok_iff {R S : Type}
    (jsonMarshalTx : Ptr (Transaction R) → Except JSONError Bytes)
    (jsonMarshalReceipt : Ptr (TransactionReceipt S) → Except JSONError Bytes)
    (tx : Ptr (Transaction R)) (receipt : Ptr (TransactionReceipt S)) (r : transaction) :
    newTx jsonMarshalTx jsonMarshalReceipt tx receipt = .ok r ↔
      ∃ t rc e txRaw rcRaw id,
        tx = some t ∧ receipt = some rc ∧ rc.EpochNumber = some e ∧
        jsonMarshalTx tx = .ok txRaw ∧ jsonMarshalReceipt receipt = .ok rcRaw ∧
        hash2ShortId t.Hash = .ok id ∧
        r = { ID := 0, Epoch := e, HashId := id, Hash := t.Hash,
              TxRawData := txRaw, TxRawDataLen := txRaw.length,
              ReceiptRawData := rcRaw, ReceiptRawDataLen := rcRaw.length } := by
  unfold newTx
  cases receipt with
  | none => simp [deref, bind, Except.bind]
  | some rc =>
    cases he : rc.EpochNumber with
    | none => simp [deref, bind, Except.bind, he]
    | some e =>
      cases tx with
      | none => simp [deref, bind, Except.bind, he]
      | some t =>
        cases h1 : jsonMarshalTx (some t) with
        | error x => simp [deref, bind, Except.bind, he, mustMarshalJSON, h1]
        | ok txRaw =>
          cases h2 : jsonMarshalReceipt (some rc) with
          | error x => simp [deref, bind, Except.bind, he, mustMarshalJSON, h1, h2]
          | ok rcRaw =>
            cases h3 : hash2ShortId t.Hash with
            | error x =>
              simp [deref, bind, Except.bind, he, mustMarshalJSON, h1, h2, h3, Hash.String,
                transaction.zero]
            | ok id =>
              simp [deref, bind, Except.bind, he, mustMarshalJSON, h1, h2, h3, Hash.String,
                transaction.zero, pure, Except.pure]
              exact eq_comm

/-- The first match in a table extended by one row, when no earlier row
matches and the new row does. -/
theorem find?_append_fresh {α : Type} (p : α → Bool) (rows : List α) (row : α)
    (hrows : ∀ r ∈ rows, p r = false) (hrow : p row = true) :
    (rows ++ [row]).find? p = some row := by
  induction rows with
  | nil => simp [List.find?, hrow]
  | cons a as ih =>
    have ha := hrows a (List.mem_cons_self _ _)
    simp only [List.cons_append, List.find?, ha]
    exact ih (fun r hr => hrows r (List.mem_cons_of_mem _ hr))

/-- The function `loadTx` as a case analysis. -/
theorem loadTx_eq (db : DB transaction) (h : GoString) :
    loadTx db h =
      match hash2ShortId h with
      | .error a => .error a
      | .ok id =>
        match db.Error with
        | some e => .ok (none, some e)
        | none =>
          match db.rows.find? (fun r => db.search r && (r.HashId == id && r.Hash == h)) with
          | some r => .ok (some r, none)
          | none => .ok (none, some .ErrRecordNotFound) := by
  unfold loadTx
  cases hid : hash2ShortId h with
  | error a => rfl
  | ok id =>
    cases he : db.Error with
    | some e => simp [bind, Except.bind, DB.Where, DB.First, DB.Scan, he, pure, Except.pure]
    | none =>
      cases hf : db.rows.find? (fun r => db.search r && (r.HashId == id && r.Hash == h)) with
      | some r => simp [bind, Except.bind, DB.Where, DB.First, DB.Scan, he, hf, pure, Except.pure]
      | none => simp [bind, Except.bind, DB.Where, DB.First, DB.Scan, he, hf, pure, Except.pure]

/-- Loading a hash right after its row was written to a table that held no
row for that hash returns the row written. -/
theorem loadTx_create_fresh (rows : List transaction) (row : transaction)
    (h : GoString) (id : Nat) (hid : hash2ShortId h = .ok id)
    (hrowId : row.HashId = id) (hrowHash : row.Hash = h)
    (hfresh : ∀ r ∈ rows, r.Hash ≠ h) :
    loadTx ((DB.ofRows rows).Create row) h = .ok (some row, none) := by
  rw [loadTx_eq, hid]
  simp only [DB.Create, DB.ofRows]
  rw [find?_append_fresh]
  · intro r hr
    have := hfresh r hr
    simp [this]
  · simp [hrowId, hrowHash]

/-- The function `loadBlock` as a case analysis. -/
theorem loadBlock_eq {H : Type}
    (jsonUnmarshalSummary : Bytes → BlockSummary H → Except JSONError (BlockSummary H))
    (zeroRest : H) (db : DB block) (cond : block → Bool) :
    loadBlock jsonUnmarshalSummary zeroRest db cond =
      match db.Error with
      | some e => .ok (none, some e)
      | none =>
        match db.rows.find? (fun r => db.search r && cond r) with
        | none => .ok (none, some .ErrRecordNotFound)
        | some r =>
          match jsonUnmarshalSummary r.RawData (BlockSummary.zero zeroRest) with
          | .ok s => .ok (some s, none)
          | .error _ => .error .fatal := by
  unfold loadBlock
  cases he : db.Error with
  | some e => simp [bind, Except.bind, DB.Where, DB.First, DB.Scan, he, pure, Except.pure]
  | none =>
    cases hf : db.rows.find? (fun r => db.search r && cond r) with
    | none => simp [bind, Except.bind, DB.Where, DB.First, DB.Scan, he, hf, pure, Except.pure]
    | some r =>
      cases hu : jsonUnmarshalSummary r.RawData (BlockSummary.zero zeroRest) with
      | ok s =>
        simp [bind, Except.bind, DB.Where, DB.First, DB.Scan, he, hf, pure, Except.pure,
          mustUnmarshalJSON, hu]
      | error x =>
        simp [bind, Except.bind, DB.Where, DB.First, DB.Scan, he, hf, pure, Except.pure,
          mustUnmarshalJSON, hu]

/-- The loop of `block2Summary` appends the hashes in order. -/
theorem block2Summary_loop {H R : Type} (txs : List (Transaction R)) (s : BlockSummary H) :
    txs.foldl
      (fun (s : BlockSummary H) tx => { s with Transactions := s.Transactions ++ [tx.Hash] }) s
      = { BlockHeader := s.BlockHeader,
          Transactions := s.Transactions ++ txs.map (fun tx => tx.Hash) } := by
  induction txs generalizing s with
  | nil => simp
  | cons t ts ih => simp [List.foldl_cons, ih]

/-- The function `block2Summary` in closed form. -/
theorem block2Summary_eq {H R : Type} (b : Block H R) :
    block2Summary (some b) =
      .ok { BlockHeader := b.BlockHeader,
            Transactions := b.Transactions.map (fun tx => tx.Hash) } := by
  simp [block2Summary, deref, bind, Except.bind, pure, Except.pure, block2Summary_loop]

/-- The function `newLog` in closed form on a log with at least one topic whose
address converts: topic fields past the topics present keep the empty
string, topics at positions 4 and beyond are not read. -/
theorem newLog_eq {A : Type} (mustGetBase32Address : A → Option GoString)
    (d : Log A) (addr : GoString) (t0 : Hash) (rest : List Hash)
    (haddr : mustGetBase32Address d.Address = some addr)
    (htopics : d.Topics = t0 :: rest) :
    newLog mustGetBase32Address (some d) =
      .ok { ID := 0, Epoch := bigToUint64 d.EpochNumber, BlockHash := d.BlockHash,
            ContractAddress := addr, Topic0 := t0,
            Topic1 := rest[0]?.getD [], Topic2 := rest[1]?.getD [],
            Topic3 := rest[2]?.getD [], Data := d.Data, DataLen := d.Data.length,
            TxHash := d.TransactionHash, TxIndex := bigToUint64 d.TransactionIndex,
            TxLogIndex := bigToUint64 d.TransactionLogIndex,
            LogIndex := bigToUint64 d.LogIndex } := by
  match rest, htopics with
  | [], h =>
    simp [newLog, deref, bind, Except.bind, haddr, index, pure, Except.pure, h,
      Hash.String, log.zero]
  | [t1], h =>
    simp [newLog, deref, bind, Except.bind, haddr, index, pure, Except.pure, h,
      Hash.String, log.zero]
  | [t1, t2], h =>
    simp [newLog, deref, bind, Except.bind, haddr, index, pure, Except.pure, h,
      Hash.String, log.zero]
  | t1 :: t2 :: t3 :: more, h =>
    simp [newLog, deref, bind, Except.bind, haddr, index, pure, Except.pure, h,
      Hash.String, log.zero]

/-! ## Short-key derivation: results -/

/-- C1: for every hash string of length at least 18 whose bytes at positions
2..17 are all hexadecimal digits (either case), `hash2ShortId` returns, the
value returned is the base-16 value of those sixteen bytes, and that value is
below `2 ^ 64` (no overflow). -/
theorem hash2ShortId_returns_hex_value (hash : GoString)
    (hlen : 18 ≤ hash.length)
    (hhex : ∀ (i : Nat) (hi : i < hash.length), 2 ≤ i → i ≤ 17 →
      isHexDigit hash[i] = true) :
    hash2ShortId hash = .ok (hexValue ((hash.drop 2).take 16)) ∧
      hexValue ((hash.drop 2).take 16) < 2 ^ 64 := by
  have hall : ∀ c ∈ window hash, isHexDigit c = true := by
    intro c hc
    obtain ⟨i, h2, h18, hi⟩ := (mem_window_iff hash c).mp hc
    obtain ⟨hlt, rfl⟩ := List.getElem?_eq_some.mp hi
    exact hhex i hlt h2 (by omega)
  exact ⟨hash2ShortId_of_window hash hlen hall,
    hexValue_lt _ (le_of_eq (window_length hash hlen))⟩

/-- Example of C1: a hash beginning `0x1234567890abcdef` has the short key
`0x1234567890abcdef`. -/
theorem hash2ShortId_returns_hex_value_witness :
    hash2ShortId (ascii "0x1234567890abcdef0000") = .ok 0x1234567890abcdef :=
  (hash2ShortId_returns_hex_value (ascii "0x1234567890abcdef0000") (by decide)
    (by
      intro i hi h2 h17
      interval_cases i <;> rfl)).1.trans (by rfl)

/-- C2: for every hash string that is shorter than 18 bytes, or that has at
one of the positions 2..17 a byte that is not a hexadecimal digit,
`hash2ShortId` aborts: it returns no value at all. -/
theorem hash2ShortId_aborts (hash : GoString)
    (hbad : hash.length < 18 ∨
      ∃ (i : Nat) (hi : i < hash.length), 2 ≤ i ∧ i ≤ 17 ∧ isHexDigit hash[i] = false) :
    (∃ a : Abort, hash2ShortId hash = .error a) ∧
      ∀ v : Nat, hash2ShortId hash ≠ .ok v := by
  have key : ∃ a : Abort, hash2ShortId hash = .error a := by
    by_cases hlen : hash.length < 18
    · exact ⟨.sliceBounds, by simp [hash2ShortId, hlen]⟩
    · rcases hbad with h | ⟨i, hi, h2, h17, hc⟩
      · exact absurd h hlen
      · have hne := window_ne_nil hash (by omega)
        obtain ⟨v, e, hve⟩ := parseUintLoop_bad (window hash) 0
          ⟨hash[i], getElem_mem_window hash i hi h2 h17, hc⟩
        refine ⟨.fatal, ?_⟩
        unfold hash2ShortId parseUintHex64
        rw [if_neg hlen]
        change (match (if window hash = [] then _ else parseUintLoop (window hash) 0) with
          | (id, none) => Except.ok id
          | (_, some _) => Except.error Abort.fatal) = _
        rw [if_neg hne, hve]
  refine ⟨key, ?_⟩
  obtain ⟨a, ha⟩ := key
  intro v hv
  rw [ha] at hv
  cases hv

/-- Examples of C2: a hash of 17 bytes, and a hash with the letter `g` at
position 17, both abort. -/
theorem hash2ShortId_aborts_witness :
    hash2ShortId (ascii "0x1234567890abcde") = .error .sliceBounds ∧
      ((∃ a : Abort, hash2ShortId (ascii "0x1234567890abcdeg00") = .error a) ∧
        ∀ v : Nat, hash2ShortId (ascii "0x1234567890abcdeg00") ≠ .ok v) :=
  ⟨by rfl, hash2ShortId_aborts (ascii "0x1234567890abcdeg00")
    (Or.inr ⟨17, by decide, by decide, by decide, by rfl⟩)⟩

/-! ## Transaction mapper: construction -/

/-- C3: whenever `newTx` returns a record, its two length fields are the byte
lengths of its two blobs, the blobs are what `mustMarshalJSON` returns for the
transaction and for the receipt, `Hash` is the string form of the
transaction's hash, and `HashId` is `hash2ShortId` of `Hash`. -/
theorem newTx_record {R S : Type}
    (jsonMarshalTx : Ptr (Transaction R) → Except JSONError Bytes)
    (jsonMarshalReceipt : Ptr (TransactionReceipt S) → Except JSONError Bytes)
    (tx : Ptr (Transaction R)) (receipt : Ptr (TransactionReceipt S)) (r : transaction)
    (hret : newTx jsonMarshalTx jsonMarshalReceipt tx receipt = .ok r) :
    r.TxRawDataLen = r.TxRawData.length ∧
      r.ReceiptRawDataLen = r.ReceiptRawData.length ∧
      mustMarshalJSON jsonMarshalTx (some tx) = .ok r.TxRawData ∧
      mustMarshalJSON jsonMarshalReceipt (some receipt) = .ok r.ReceiptRawData ∧
      (∃ t, tx = some t ∧ r.Hash = t.Hash.String) ∧
      hash2ShortId r.Hash = .ok r.HashId := by
  obtain ⟨t, rc, e, txRaw, rcRaw, id, rfl, rfl, -, h1, h2, h3, rfl⟩ :=
    (newTx_eq_ok_iff jsonMarshalTx jsonMarshalReceipt tx receipt r).mp hret
  refine ⟨rfl, rfl, ?_, ?_, ⟨t, rfl, rfl⟩, h3⟩
  · simp [mustMarshalJSON, h1]
  · simp [mustMarshalJSON, h2]

/-- Example of C3 on the sample pair. -/
theorem newTx_record_witness :
    newTx sampleMarshal sampleMarshal (some sampleTx) (some sampleReceipt) = .ok sampleRow ∧
      sampleRow.TxRawDataLen = sampleRow.TxRawData.length ∧
      hash2ShortId sampleRow.Hash = .ok sampleRow.HashId :=
  have h := newTx_record sampleMarshal sampleMarshal (some sampleTx) (some sampleReceipt)
    sampleRow (by rfl)
  ⟨by rfl, h.1, h.2.2.2.2.2⟩

/-! ## Block mapper: the summary -/

/-- C4: for every block, `block2Summary` returns a summary whose header is the
block's header, whose hash list has the length of the block's transaction
list and holds at every index the hash of the transaction at that index; an
empty transaction list gives an empty hash list. -/
theorem block2Summary_spec {H R : Type} (b : Block H R) :
    ∃ s : BlockSummary H, block2Summary (some b) = .ok s ∧
      s.BlockHeader = b.BlockHeader ∧
      s.Transactions.length = b.Transactions.length ∧
      (∀ (i : Nat) (hi : i < b.Transactions.length),
        s.Transactions[i]? = some (b.Transactions[i]).Hash) ∧
      (b.Transactions = [] → s.Transactions = []) := by
  refine ⟨_, block2Summary_eq b, rfl, by simp, ?_, ?_⟩
  · intro i hi
    simp [List.getElem?_map, List.getElem?_eq_getElem hi]
  · intro h
    simp [h]

/-! ## Log mapper: topics -/

/-- C5, as stated, fails: on a log with two topics whose address conversion
panics `newLog` returns no record. -/
theorem newLog_topics_counterexample :
    newLog failingBase32 (some (sampleLog [ascii "0xa0", ascii "0xa1"]))
        = .error .addressPanic ∧
      ¬ ∃ l : log,
        newLog failingBase32 (some (sampleLog [ascii "0xa0", ascii "0xa1"])) = .ok l ∧
        [l.Topic0, l.Topic1, l.Topic2, l.Topic3] =
          [ascii "0xa0", ascii "0xa1"].map Hash.String ++ List.replicate (4 - 2) [] := by
  have h : newLog failingBase32 (some (sampleLog [ascii "0xa0", ascii "0xa1"]))
      = .error .addressPanic := by rfl
  refine ⟨h, ?_⟩
  rintro ⟨l, hl, -⟩
  rw [h] at hl
  cases hl

/-- C5 (amended): for every log with `n` topics, `1 ≤ n ≤ 4`, on whose address
`MustGetBase32Address` does not panic, `newLog` returns a record in which the
first `n` of the fields `Topic0..Topic3` are the string forms of the topics
in order and the remaining `4 - n` fields are the empty string. -/
theorem newLog_topics {A : Type} (mustGetBase32Address : A → Option GoString)
    (d : Log A) (addr : GoString) (n : Nat)
    (haddr : mustGetBase32Address d.Address = some addr)
    (hn : d.Topics.length = n) (h1 : 1 ≤ n) (h4 : n ≤ 4) :
    ∃ l : log, newLog mustGetBase32Address (some d) = .ok l ∧
      [l.Topic0, l.Topic1, l.Topic2, l.Topic3] =
        d.Topics.map Hash.String ++ List.replicate (4 - n) [] := by
  subst hn
  match hts : d.Topics, h1, h4 with
  | [t0], _, _ =>
    exact ⟨_, newLog_eq mustGetBase32Address d addr t0 [] haddr hts, by
      simp [Hash.String, List.replicate]⟩
  | [t0, t1], _, _ =>
    exact ⟨_, newLog_eq mustGetBase32Address d addr t0 [t1] haddr hts, by
      simp [Hash.String, List.replicate]⟩
  | [t0, t1, t2], _, _ =>
    exact ⟨_, newLog_eq mustGetBase32Address d addr t0 [t1, t2] haddr hts, by
      simp [Hash.String, List.replicate]⟩
  | [t0, t1, t2, t3], _, _ =>
    exact ⟨_, newLog_eq mustGetBase32Address d addr t0 [t1, t2, t3] haddr hts, by
      simp [Hash.String, List.replicate]⟩
  | _ :: _ :: _ :: _ :: _ :: _, _, h => simp at h

/-- Example of the amended C5 with two topics. -/
theorem newLog_topics_witness :
    ∃ l : log, newLog sampleBase32 (some (sampleLog [ascii "0xa0", ascii "0xa1"])) = .ok l ∧
      [l.Topic0, l.Topic1, l.Topic2, l.Topic3] =
        [ascii "0xa0", ascii "0xa1"].map Hash.String ++ List.replicate (4 - 2) [] :=
  newLog_topics sampleBase32 (sampleLog [ascii "0xa0", ascii "0xa1"])
    (sampleLog []).Address 2 (by rfl) (by rfl) (by decide) (by decide)

/-- C6, as stated, fails: on a log without topics `newLog` returns no record. -/
theorem newLog_zero_topics_counterexample :
    ¬ ∃ l : log, newLog sampleBase32 (some (sampleLog [])) = .ok l ∧
      l.Topic0 = [] ∧ l.Topic1 = [] ∧ l.Topic2 = [] ∧ l.Topic3 = [] := by
  rintro ⟨l, hl, -⟩
  have h : newLog sampleBase32 (some (sampleLog [])) = .error .indexOutOfRange := by rfl
  rw [h] at hl
  cases hl

/-- C6 (amended): for a log that carries zero topics `newLog` returns no
record: it aborts, with an index-out-of-range panic at `Topics[0]` when the
address converts. -/
theorem newLog_zero_topics_aborts {A : Type} (mustGetBase32Address : A → Option GoString)
    (d : Log A) (h0 : d.Topics = []) :
    (∃ a : Abort, newLog mustGetBase32Address (some d) = .error a) ∧
      (∀ addr, mustGetBase32Address d.Address = some addr →
        newLog mustGetBase32Address (some d) = .error .indexOutOfRange) := by
  cases haddr : mustGetBase32Address d.Address with
  | none =>
    refine ⟨⟨.addressPanic, ?_⟩, fun addr h => by cases h⟩
    simp [newLog, deref, bind, Except.bind, haddr, throw, throwThe, MonadExceptOf.throw]
  | some a =>
    have h : newLog mustGetBase32Address (some d) = .error .indexOutOfRange := by
      simp [newLog, deref, bind, Except.bind, haddr, index, h0, pure, Except.pure]
    exact ⟨⟨_, h⟩, fun _ _ => h⟩

/-- Example of the amended C6. -/
theorem newLog_zero_topics_aborts_witness :
    newLog sampleBase32 (some (sampleLog [])) = .error .indexOutOfRange :=
  (newLog_zero_topics_aborts sampleBase32 (sampleLog []) (by rfl)).2 _ (by rfl)

/-! ## Loading transactions and blocks -/

/-- C8, as stated, fails: the table holds an earlier row for the sample hash,
at epoch 7; after the row of the sample pair (epoch 100) is written, `loadTx`
returns the earlier row, whose `Epoch` is 7. -/
theorem loadTx_after_write_counterexample :
    isCanonicalHash sampleTx.Hash = true ∧
      sampleReceipt.EpochNumber = some 100 ∧
      newTx sampleMarshal sampleMarshal (some sampleTx) (some sampleReceipt) = .ok sampleRow ∧
      loadTx ((DB.ofRows [staleRow]).Create sampleRow) sampleTx.Hash
        = .ok (some staleRow, none) ∧
      staleRow.Epoch ≠ 100 :=
  ⟨by rfl, by rfl, by rfl, by rfl, by decide⟩

/-- C8 (amended): for every transaction with a canonical 66-byte hash `h` and
every receipt with epoch number `e` that the encoder accepts, `newTx` returns
a row, and once that row is written to a table holding no earlier row with
hash `h` (the empty table included), `loadTx` called with `h` returns,
without error, a record whose `Epoch` is `e` and whose `Hash` is `h`. -/
theorem loadTx_after_write {R S : Type}
    (jsonMarshalTx : Ptr (Transaction R) → Except JSONError Bytes)
    (jsonMarshalReceipt : Ptr (TransactionReceipt S) → Except JSONError Bytes)
    (t : Transaction R) (rc : TransactionReceipt S) (e : Nat)
    (txRaw rcRaw : Bytes) (rows : List transaction)
    (hcanon : isCanonicalHash t.Hash = true)
    (hepoch : rc.EpochNumber = some e)
    (htx : jsonMarshalTx (some t) = .ok txRaw)
    (hrc : jsonMarshalReceipt (some rc) = .ok rcRaw)
    (hfresh : ∀ r ∈ rows, r.Hash ≠ t.Hash) :
    ∃ row r : transaction,
      newTx jsonMarshalTx jsonMarshalReceipt (some t) (some rc) = .ok row ∧
      loadTx ((DB.ofRows rows).Create row) t.Hash = .ok (some r, none) ∧
      r.Epoch = e ∧ r.Hash = t.Hash := by
  have hid := hash2ShortId_of_canonical t.Hash hcanon
  have hnew := (newTx_eq_ok_iff jsonMarshalTx jsonMarshalReceipt (some t) (some rc) _).mpr
    ⟨t, rc, e, txRaw, rcRaw, _, rfl, rfl, hepoch, htx, hrc, hid, rfl⟩
  exact ⟨_, _, hnew, loadTx_create_fresh rows _ t.Hash _ hid rfl rfl hfresh, rfl, rfl⟩

/-- Example of the amended C8: hash `0xaaaa…` (66 bytes), epoch 100, written
to a table that already holds a row with a colliding short key. -/
theorem loadTx_after_write_witness :
    ∃ row r : transaction,
      newTx sampleMarshal sampleMarshal (some sampleTx) (some sampleReceipt) = .ok row ∧
      loadTx ((DB.ofRows [collidingRow]).Create row) sampleTx.Hash = .ok (some r, none) ∧
      r.Epoch = 100 ∧ r.Hash = sampleTx.Hash :=
  loadTx_after_write sampleMarshal sampleMarshal sampleTx sampleReceipt 100
    (ascii "tx") (ascii "tx") [collidingRow] (by rfl) (by rfl) (by rfl) (by rfl)
    (by
      intro r hr
      rw [List.mem_singleton.mp hr]
      decide)

/-- C9: for every store content and every hash `h`, a record returned by
`loadTx` is a stored row with `Hash = h` and `HashId = hash2ShortId h`, and
no error comes with it; so a stored row whose short key is that of `h` but
whose hash differs from `h` is not the record returned. -/
theorem loadTx_exact_match (db : DB transaction) (h : GoString)
    (r : transaction) (err : Option GormError)
    (hret : loadTx db h = .ok (some r, err)) :
    r.Hash = h ∧ hash2ShortId h = .ok r.HashId ∧ r ∈ db.rows ∧ err = none ∧
      ∀ row ∈ db.rows, hash2ShortId h = .ok row.HashId → row.Hash ≠ h → row ≠ r := by
  rw [loadTx_eq] at hret
  cases hid : hash2ShortId h with
  | error a => simp [hid] at hret
  | ok id =>
    cases he : db.Error with
    | some e => simp [hid, he] at hret
    | none =>
      cases hf : db.rows.find? (fun r => db.search r && (r.HashId == id && r.Hash == h)) with
      | none => simp [hid, he, hf] at hret
      | some r0 =>
        simp only [hid, he, hf, Except.ok.injEq, Prod.mk.injEq, Option.some.injEq] at hret
        obtain ⟨rfl, rfl⟩ := hret
        have hp := List.find?_some hf
        have hm := List.mem_of_find?_eq_some hf
        simp only [Bool.and_eq_true, beq_iff_eq] at hp
        obtain ⟨-, hId, hH⟩ := hp
        refine ⟨hH, by rw [hId], hm, rfl, ?_⟩
        intro row _ _ hne heq
        exact hne (heq ▸ hH)

/-- Example of C9: the store holds a colliding row before the row asked for;
the row asked for is returned. -/
theorem loadTx_exact_match_witness :
    loadTx (DB.ofRows [collidingRow, sampleRow]) sampleRow.Hash = .ok (some sampleRow, none) ∧
      sampleRow.Hash = sampleRow.Hash ∧
      hash2ShortId sampleRow.Hash = .ok sampleRow.HashId ∧
      hash2ShortId sampleRow.Hash = .ok collidingRow.HashId ∧
      collidingRow ≠ sampleRow :=
  have hret : loadTx (DB.ofRows [collidingRow, sampleRow]) sampleRow.Hash
      = .ok (some sampleRow, none) := by rfl
  have h := loadTx_exact_match (DB.ofRows [collidingRow, sampleRow]) sampleRow.Hash
    sampleRow none hret
  ⟨hret, h.1, h.2.1, by rfl,
    h.2.2.2.2 collidingRow (by simp [DB.ofRows]) (by rfl) (by decide)⟩

/-- C10: for every hash `h` with hexadecimal digits at positions 2..17 and
every store holding no row with `hash_id = hash2ShortId h` and `hash = h`,
`loadTx` returns an error and no record; and `loadBlock` returns an error and
no summary when no row satisfies its filter, whatever the decoder would do. -/
theorem load_not_found {H : Type}
    (jsonUnmarshalSummary : Bytes → BlockSummary H → Except JSONError (BlockSummary H))
    (zeroRest : H) (txs : DB transaction) (h : GoString)
    (blocks : DB block) (cond : block → Bool)
    (hlen : 18 ≤ h.length)
    (hhex : ∀ (i : Nat) (hi : i < h.length), 2 ≤ i → i ≤ 17 → isHexDigit h[i] = true)
    (hnoTx : ∀ r ∈ txs.rows, ¬ (hash2ShortId h = .ok r.HashId ∧ r.Hash = h))
    (hnoBlock : ∀ r ∈ blocks.rows, cond r = false) :
    (∃ e : GormError, loadTx txs h = .ok (none, some e)) ∧
      (∃ e : GormError,
        loadBlock jsonUnmarshalSummary zeroRest blocks cond = .ok (none, some e)) := by
  have hall : ∀ c ∈ window h, isHexDigit c = true := by
    intro c hc
    obtain ⟨i, h2, h18, hi⟩ := (mem_window_iff h c).mp hc
    obtain ⟨hlt, rfl⟩ := List.getElem?_eq_some.mp hi
    exact hhex i hlt h2 (by omega)
  have hid := hash2ShortId_of_window h hlen hall
  constructor
  · rw [loadTx_eq, hid]
    cases he : txs.Error with
    | some e => exact ⟨e, rfl⟩
    | none =>
      have hf : txs.rows.find?
          (fun r => txs.search r && (r.HashId == hexValue (window h) && r.Hash == h)) = none := by
        rw [List.find?_eq_none]
        intro r hr hp
        simp only [Bool.and_eq_true, beq_iff_eq] at hp
        exact hnoTx r hr ⟨by rw [hid, hp.2.1], hp.2.2⟩
      exact ⟨.ErrRecordNotFound, by simp [hf]⟩
  · rw [loadBlock_eq]
    cases he : blocks.Error with
    | some e => exact ⟨e, rfl⟩
    | none =>
      have hf : blocks.rows.find? (fun r => blocks.search r && cond r) = none := by
        rw [List.find?_eq_none]
        intro r hr hp
        simp [hnoBlock r hr] at hp
      exact ⟨.ErrRecordNotFound, by simp [hf]⟩

/-- Example of C10: the store holds only a colliding row; the block table is
empty and the decoder rejects every input. -/
theorem load_not_found_witness :
    (∃ e : GormError, loadTx (DB.ofRows [collidingRow]) sampleRow.Hash = .ok (none, some e)) ∧
      (∃ e : GormError,
        loadBlock sampleUnmarshalFail () (DB.ofRows []) (fun _ => true) = .ok (none, some e)) :=
  load_not_found sampleUnmarshalFail () (DB.ofRows [collidingRow]) sampleRow.Hash
    (DB.ofRows []) (fun _ => true) (by decide)
    (by
      intro i hi h2 h17
      interval_cases i <;> rfl)
    (by
      intro r hr
      rw [List.mem_singleton.mp hr]
      rintro ⟨-, h⟩
      revert h
      decide)
    (by
      intro r hr
      cases hr)

/-! ## Further facts used by the remaining results -/

/-- A hash shorter than 18 bytes, or with a byte that is no hexadecimal digit
at one of the positions 2..17, makes `hash2ShortId` abort. -/
theorem hash2ShortId_error_of_bad (hash : GoString)
    (hbad : hash.length < 18 ∨
      ∃ (i : Nat) (hi : i < hash.length), 2 ≤ i ∧ i ≤ 17 ∧ isHexDigit hash[i] = false) :
    ∃ a : Abort, hash2ShortId hash = .error a := by
  by_cases hlen : hash.length < 18
  · exact ⟨.sliceBounds, by simp [hash2ShortId, hlen]⟩
  · rcases hbad with h | ⟨i, hi, h2, h17, hc⟩
    · exact absurd h hlen
    · have hne := window_ne_nil hash (by omega)
      obtain ⟨v, e, hve⟩ := parseUintLoop_bad (window hash) 0
        ⟨hash[i], getElem_mem_window hash i hi h2 h17, hc⟩
      refine ⟨.fatal, ?_⟩
      unfold hash2ShortId parseUintHex64
      rw [if_neg hlen]
      change (match (if window hash = [] then _ else parseUintLoop (window hash) 0) with
        | (id, none) => Except.ok id
        | (_, some _) => Except.error Abort.fatal) = _
      rw [if_neg hne, hve]

/-- On strings of at least 18 bytes `hash2ShortId` is a function of the
window alone. -/
theorem hash2ShortId_congr_window (h1 h2 : GoString)
    (hl1 : 18 ≤ h1.length) (hl2 : 18 ≤ h2.length) (hw : window h1 = window h2) :
    hash2ShortId h1 = hash2ShortId h2 := by
  unfold hash2ShortId
  rw [if_neg (by omega), if_neg (by omega)]
  change (match parseUintHex64 (window h1) with
    | (id, none) => Except.ok id
    | (_, some _) => Except.error Abort.fatal) =
    (match parseUintHex64 (window h2) with
    | (id, none) => Except.ok id
    | (_, some _) => Except.error Abort.fatal)
  rw [hw]

/-- Two strings that agree at the positions 2..17 have the same window. -/
theorem window_eq_of_agree (h1 h2 : GoString)
    (hagree : ∀ i, 2 ≤ i → i ≤ 17 → h1[i]? = h2[i]?) : window h1 = window h2 := by
  apply List.ext_getElem?
  intro j
  unfold window
  rw [List.getElem?_take, List.getElem?_take]
  split_ifs with hj
  · rw [List.getElem?_drop, List.getElem?_drop]
    exact hagree (2 + j) (by omega) (by omega)
  · rfl

/-- The bytes of the window satisfy what the positions 2..17 satisfy. -/
theorem window_all_hex (hash : GoString)
    (hhex : ∀ (i : Nat) (hi : i < hash.length), 2 ≤ i → i ≤ 17 →
      isHexDigit hash[i] = true) :
    ∀ c ∈ window hash, isHexDigit c = true := by
  intro c hc
  obtain ⟨i, h2, h18, hi⟩ := (mem_window_iff hash c).mp hc
  obtain ⟨hlt, rfl⟩ := List.getElem?_eq_some.mp hi
  exact hhex i hlt h2 (by omega)

set_option maxRecDepth 100000 in
/-- A hexadecimal digit, lower-cased, is the digit character of its value. -/
theorem lowerHex_eq_hexDigitChar :
    ∀ c : Byte, isHexDigit c = true → lowerHex c = hexDigitChar (hexDigitValue c) := by
  decide

set_option maxRecDepth 100000 in
/-- Lower-casing a hexadecimal digit keeps its value. -/
theorem hexDigitValue_lowerHex :
    ∀ c : Byte, isHexDigit c = true → hexDigitValue (lowerHex c) = hexDigitValue c := by
  decide

/-- Base-16 positional values of two digit strings of one length are equal
only if the strings have the same digit values. -/
theorem foldl_hex_inj (s1 s2 : List Byte) (n1 n2 : Nat) (hlen : s1.length = s2.length)
    (heq : s1.foldl (fun n c => 16 * n + hexDigitValue c) n1 =
      s2.foldl (fun n c => 16 * n + hexDigitValue c) n2) :
    n1 = n2 ∧ s1.map hexDigitValue = s2.map hexDigitValue := by
  induction s1 generalizing s2 n1 n2 with
  | nil =>
    cases s2 with
    | nil => exact ⟨by simpa using heq, rfl⟩
    | cons _ _ => simp at hlen
  | cons c1 t1 ih =>
    cases s2 with
    | nil => simp at hlen
    | cons c2 t2 =>
      simp only [List.foldl_cons] at heq
      simp only [List.length_cons, add_left_inj] at hlen
      obtain ⟨hn, ht⟩ := ih t2 _ _ hlen heq
      have hd1 := hexDigitValue_lt c1
      have hd2 := hexDigitValue_lt c2
      have hn' : n1 = n2 := by omega
      have hd : hexDigitValue c1 = hexDigitValue c2 := by omega
      exact ⟨hn', by simp [hd, ht]⟩

/-- On hexadecimal digits, equal digit values mean equal bytes up to case. -/
theorem map_lowerHex_eq_of_values (s1 s2 : List Byte)
    (hs1 : ∀ c ∈ s1, isHexDigit c = true) (hs2 : ∀ c ∈ s2, isHexDigit c = true)
    (hv : s1.map hexDigitValue = s2.map hexDigitValue) :
    s1.map lowerHex = s2.map lowerHex := by
  have e1 : s1.map lowerHex = (s1.map hexDigitValue).map hexDigitChar := by
    rw [List.map_map]
    exact List.map_congr_left (fun c hc => lowerHex_eq_hexDigitChar c (hs1 c hc))
  have e2 : s2.map lowerHex = (s2.map hexDigitValue).map hexDigitChar := by
    rw [List.map_map]
    exact List.map_congr_left (fun c hc => lowerHex_eq_hexDigitChar c (hs2 c hc))
  rw [e1, e2, hv]

/-- On hexadecimal digits, equal bytes up to case mean equal digit values. -/
theorem map_values_eq_of_lowerHex (s1 s2 : List Byte)
    (hs1 : ∀ c ∈ s1, isHexDigit c = true) (hs2 : ∀ c ∈ s2, isHexDigit c = true)
    (hl : s1.map lowerHex = s2.map lowerHex) :
    s1.map hexDigitValue = s2.map hexDigitValue := by
  have e1 : s1.map hexDigitValue = (s1.map lowerHex).map hexDigitValue := by
    rw [List.map_map]
    exact List.map_congr_left (fun c hc => (hexDigitValue_lowerHex c (hs1 c hc)).symm)
  have e2 : s2.map hexDigitValue = (s2.map lowerHex).map hexDigitValue := by
    rw [List.map_map]
    exact List.map_congr_left (fun c hc => (hexDigitValue_lowerHex c (hs2 c hc)).symm)
  rw [e1, e2, hl]

/-- The base-16 value is a function of the digit values. -/
theorem hexValue_eq_of_values (s1 s2 : List Byte)
    (hv : s1.map hexDigitValue = s2.map hexDigitValue) : hexValue s1 = hexValue s2 := by
  have key : ∀ (s : List Byte) (n : Nat),
      s.foldl (fun n c => 16 * n + hexDigitValue c) n =
        (s.map hexDigitValue).foldl (fun n d => 16 * n + d) n := by
    intro s
    induction s with
    | nil => intro n; rfl
    | cons c t ih => intro n; simp only [List.foldl_cons, List.map_cons]; exact ih _
  unfold hexValue
  rw [key s1, key s2, hv]

/-- What `newBlock` computes when it returns, and the conditions under which
it returns. -/
theorem newBlock_eq_ok_iff {H R : Type}
    (jsonMarshalSummary : Ptr (BlockSummary H) → Except JSONError Bytes)
    (data : Ptr (Block H R)) (pivot : Bool) (r : block) :
    newBlock jsonMarshalSummary data pivot = .ok r ↔
      ∃ b raw id,
        data = some b ∧
        jsonMarshalSummary
          (some ⟨b.BlockHeader, b.Transactions.map (fun tx => tx.Hash)⟩) = .ok raw ∧
        hash2ShortId b.BlockHeader.Hash = .ok id ∧
        r = { ID := 0, Epoch := bigToUint64 b.BlockHeader.EpochNumber, HashId := id,
              Hash := b.BlockHeader.Hash, Pivot := pivot, RawData := raw,
              RawDataLen := raw.length } := by
  unfold newBlock
  cases data with
  | none => simp [deref, bind, Except.bind]
  | some b =>
    rw [block2Summary_eq]
    cases h1 : jsonMarshalSummary
        (some ⟨b.BlockHeader, b.Transactions.map (fun tx => tx.Hash)⟩) with
    | error x => simp [deref, bind, Except.bind, mustMarshalJSON, h1]
    | ok raw =>
      cases h3 : hash2ShortId b.BlockHeader.Hash with
      | error x =>
        simp [deref, bind, Except.bind, mustMarshalJSON, h1, h3, Hash.String, block.zero]
      | ok id =>
        simp [deref, bind, Except.bind, mustMarshalJSON, h1, h3, Hash.String, block.zero,
          pure, Except.pure]
        exact eq_comm

/-- The conversion `ToInt().Uint64()` keeps a number that fits 64 bits. -/
theorem bigToUint64_of_fits (x : Int) (hx : fitsUint64 x = true) :
    (bigToUint64 x : Int) = x := by
  simp only [fitsUint64, Bool.and_eq_true, decide_eq_true_eq] at hx
  obtain ⟨h0, h64⟩ := hx
  unfold bigToUint64
  have h1 : (x.natAbs : Int) = x := Int.natAbs_of_nonneg h0
  have h2 : x.natAbs < 2 ^ 64 := by
    have : (x.natAbs : Int) < 2 ^ 64 := by rw [h1]; exact h64
    exact_mod_cast this
  rw [Nat.mod_eq_of_lt h2, h1]

/-- An interface that holds a nil pointer is not the nil interface: the
encoder is called on the nil pointer. -/
theorem mustMarshalJSON_typed_nil {α : Type}
    (jsonMarshal : Ptr α → Except JSONError Bytes) (raw : Bytes)
    (h : jsonMarshal none = .ok raw) :
    mustMarshalJSON jsonMarshal (some none) = .ok raw := by
  simp [mustMarshalJSON, h]

/-! ## Strict serialization: the nil value -/

/-- C11, as stated, fails: a nil receipt pointer, the null value a caller
such as `newTx` hands over, is an interface that is not nil; the encoder is
called on it and its result, the four bytes `null`, is returned. -/
theorem mustMarshalJSON_nil_pointer_counterexample :
    mustMarshalJSON sampleMarshal (some (none : Ptr (TransactionReceipt Unit)))
        = .ok (ascii "null") ∧
      (ascii "null").length = 4 ∧
      mustMarshalJSON sampleMarshal (some (none : Ptr (TransactionReceipt Unit)))
        ≠ .ok [] := by
  refine ⟨by rfl, by rfl, ?_⟩
  intro h
  have h2 : mustMarshalJSON sampleMarshal (some (none : Ptr (TransactionReceipt Unit)))
      = .ok (ascii "null") := by rfl
  rw [h2] at h
  exact absurd (congrArg List.length (Except.ok.inj h)) (by decide)

/-- C11 (amended): `mustMarshalJSON` applied to the nil interface value
returns the nil byte slice, whatever the encoder would do, and does not
abort; consequently a record that holds this result as a blob and the byte
length of the blob as its length field, as `newTx` and `newBlock` fill them,
has an empty blob and a blob length of 0. -/
theorem mustMarshalJSON_nil_interface {α : Type}
    (jsonMarshal : α → Except JSONError Bytes) :
    mustMarshalJSON jsonMarshal none = .ok [] ∧
      (∀ r : transaction, mustMarshalJSON jsonMarshal none = .ok r.TxRawData →
        r.TxRawDataLen = r.TxRawData.length → r.TxRawData = [] ∧ r.TxRawDataLen = 0) ∧
      (∀ r : transaction, mustMarshalJSON jsonMarshal none = .ok r.ReceiptRawData →
        r.ReceiptRawDataLen = r.ReceiptRawData.length →
        r.ReceiptRawData = [] ∧ r.ReceiptRawDataLen = 0) ∧
      (∀ r : block, mustMarshalJSON jsonMarshal none = .ok r.RawData →
        r.RawDataLen = r.RawData.length → r.RawData = [] ∧ r.RawDataLen = 0) := by
  have h0 : mustMarshalJSON jsonMarshal none = .ok [] := rfl
  refine ⟨h0, ?_, ?_, ?_⟩
  · intro r hb hl
    have hnil : r.TxRawData = [] := (Except.ok.inj (h0.symm.trans hb)).symm
    exact ⟨hnil, by rw [hl, hnil]; rfl⟩
  · intro r hb hl
    have hnil : r.ReceiptRawData = [] := (Except.ok.inj (h0.symm.trans hb)).symm
    exact ⟨hnil, by rw [hl, hnil]; rfl⟩
  · intro r hb hl
    have hnil : r.RawData = [] := (Except.ok.inj (h0.symm.trans hb)).symm
    exact ⟨hnil, by rw [hl, hnil]; rfl⟩

/-- Example of the amended C11: an encoder that rejects every value is not
reached, and the zero record of table `txs` holds the result as its receipt
blob. -/
theorem mustMarshalJSON_nil_interface_witness :
    mustMarshalJSON failingMarshal (none : Option (Ptr (TransactionReceipt Unit))) = .ok [] ∧
      transaction.zero.ReceiptRawData = [] ∧ transaction.zero.ReceiptRawDataLen = 0 :=
  have h := mustMarshalJSON_nil_interface
    (failingMarshal : Ptr (TransactionReceipt Unit) → Except JSONError Bytes)
  ⟨h.1, h.2.2.1 transaction.zero (by rfl) (by rfl)⟩

/-! ## Block mapper: construction -/

/-- C12, as stated, fails: on a block whose epoch number is `2 ^ 64`
`newBlock` returns a record whose `Epoch` is 0. -/
theorem newBlock_epoch_counterexample :
    ∃ r : block, newBlock sampleMarshal (some (sampleBlock (2 ^ 64))) true = .ok r ∧
      (r.Epoch : Int) ≠ (sampleBlock (2 ^ 64)).BlockHeader.EpochNumber :=
  ⟨{ ID := 0, Epoch := 0, HashId := 0xaaaaaaaaaaaaaaaa, Hash := sampleTx.Hash,
     Pivot := true, RawData := ascii "tx", RawDataLen := 2 }, by rfl, by decide⟩

/-- C12 (amended): whenever `newBlock` returns a record for a block `b` and a
flag `p`, `RawDataLen` is the byte length of `RawData`, `RawData` is what
`mustMarshalJSON` returns for `block2Summary b`, `Hash` is the string form of
the header's hash, `HashId` is `hash2ShortId` of `Hash`, `Pivot` is `p`, and
`Epoch` is the header's epoch number converted by `ToInt().Uint64()`, which
is the epoch number itself whenever that number fits 64 bits. -/
theorem newBlock_record {H R : Type}
    (jsonMarshalSummary : Ptr (BlockSummary H) → Except JSONError Bytes)
    (b : Block H R) (p : Bool) (r : block)
    (hret : newBlock jsonMarshalSummary (some b) p = .ok r) :
    r.RawDataLen = r.RawData.length ∧
      (∃ s : BlockSummary H, block2Summary (some b) = .ok s ∧
        mustMarshalJSON jsonMarshalSummary (some (some s)) = .ok r.RawData) ∧
      r.Hash = b.BlockHeader.Hash.String ∧
      hash2ShortId r.Hash = .ok r.HashId ∧
      r.Pivot = p ∧
      r.Epoch = bigToUint64 b.BlockHeader.EpochNumber ∧
      (fitsUint64 b.BlockHeader.EpochNumber = true →
        (r.Epoch : Int) = b.BlockHeader.EpochNumber) := by
  obtain ⟨b0, raw, id, hb, h1, h3, rfl⟩ :=
    (newBlock_eq_ok_iff jsonMarshalSummary (some b) p r).mp hret
  cases hb
  refine ⟨rfl, ⟨_, block2Summary_eq b, ?_⟩, rfl, h3, rfl, rfl, ?_⟩
  · simp [mustMarshalJSON, h1]
  · exact bigToUint64_of_fits _

/-- Example of the amended C12: the sample block at epoch 100. -/
theorem newBlock_record_witness :
    newBlock sampleMarshal (some (sampleBlock 100)) true =
        .ok { ID := 0, Epoch := 100, HashId := 0xaaaaaaaaaaaaaaaa, Hash := sampleTx.Hash,
              Pivot := true, RawData := ascii "tx", RawDataLen := 2 } ∧
      ((100 : Nat) : Int) = (sampleBlock 100).BlockHeader.EpochNumber :=
  have hret : newBlock sampleMarshal (some (sampleBlock 100)) true =
      .ok { ID := 0, Epoch := 100, HashId := 0xaaaaaaaaaaaaaaaa, Hash := sampleTx.Hash,
            Pivot := true, RawData := ascii "tx", RawDataLen := 2 } := by rfl
  ⟨hret, (newBlock_record sampleMarshal (sampleBlock 100) true _ hret).2.2.2.2.2.2 (by rfl)⟩

/-! ## Log mapper: copied fields -/

/-- C13, as stated, fails: on a log whose transaction index is `2 ^ 64 + 5`
`newLog` returns a record whose `TxIndex` is 5. -/
theorem newLog_index_counterexample :
    ∃ l : log, newLog sampleBase32 (some oversizedLog) = .ok l ∧
      (l.TxIndex : Int) ≠ oversizedLog.TransactionIndex :=
  ⟨{ ID := 0, Epoch := 100, BlockHash := ascii "0xb1",
     ContractAddress := oversizedLog.Address, Topic0 := ascii "0xa0", Topic1 := [],
     Topic2 := [], Topic3 := [], Data := [1, 2, 3], DataLen := 3, TxHash := ascii "0xc1",
     TxIndex := 5, TxLogIndex := 2, LogIndex := 3 }, by rfl, by decide⟩

/-- C13 (amended): for every log with at least one topic whose address
converts, `newLog` returns a record whose `Data` is the source payload, whose
`DataLen` is the byte length of `Data`, whose `BlockHash` and `TxHash` are the
string forms of the source hashes, and whose `Epoch`, `TxIndex`, `TxLogIndex`
and `LogIndex` are the source fields `EpochNumber`, `TransactionIndex`,
`TransactionLogIndex` and `LogIndex` converted by `ToInt().Uint64()`, each
equal to its source field whenever that field fits 64 bits. -/
theorem newLog_copied_fields {A : Type} (mustGetBase32Address : A → Option GoString)
    (d : Log A) (addr : GoString)
    (haddr : mustGetBase32Address d.Address = some addr)
    (htopics : 1 ≤ d.Topics.length) :
    ∃ l : log, newLog mustGetBase32Address (some d) = .ok l ∧
      l.Data = d.Data ∧ l.DataLen = l.Data.length ∧
      l.BlockHash = d.BlockHash.String ∧ l.TxHash = d.TransactionHash.String ∧
      l.Epoch = bigToUint64 d.EpochNumber ∧
      l.TxIndex = bigToUint64 d.TransactionIndex ∧
      l.TxLogIndex = bigToUint64 d.TransactionLogIndex ∧
      l.LogIndex = bigToUint64 d.LogIndex ∧
      (fitsUint64 d.EpochNumber = true → (l.Epoch : Int) = d.EpochNumber) ∧
      (fitsUint64 d.TransactionIndex = true → (l.TxIndex : Int) = d.TransactionIndex) ∧
      (fitsUint64 d.TransactionLogIndex = true →
        (l.TxLogIndex : Int) = d.TransactionLogIndex) ∧
      (fitsUint64 d.LogIndex = true → (l.LogIndex : Int) = d.LogIndex) := by
  match hts : d.Topics, htopics with
  | t0 :: rest, _ =>
    exact ⟨_, newLog_eq mustGetBase32Address d addr t0 rest haddr hts, rfl, rfl, rfl, rfl,
      rfl, rfl, rfl, rfl, bigToUint64_of_fits _, bigToUint64_of_fits _,
      bigToUint64_of_fits _, bigToUint64_of_fits _⟩

/-- Example of the amended C13: a sample log with one topic. -/
theorem newLog_copied_fields_witness :
    ∃ l : log, newLog sampleBase32 (some (sampleLog [ascii "0xa0"])) = .ok l ∧
      l.Data = [1, 2, 3] ∧ l.DataLen = 3 ∧ l.Epoch = 100 ∧
      l.TxIndex = 1 ∧ l.TxLogIndex = 2 ∧ l.LogIndex = 3 := by
  obtain ⟨l, hl, h1, h2, -, -, h5, h6, h7, h8, -⟩ :=
    newLog_copied_fields sampleBase32 (sampleLog [ascii "0xa0"]) (sampleLog []).Address
      (by rfl) (by decide)
  refine ⟨l, hl, h1, ?_, h5, h6, h7, h8⟩
  rw [h2, h1]
  rfl

/-! ## Short-key derivation: dependence on the window -/

/-- C14: for any two strings of length at least 18 that agree at the
positions 2..17, `hash2ShortId` gives the same outcome: it returns the same
value for both or it aborts for both, whatever their first two bytes and
whatever follows position 17. -/
theorem hash2ShortId_window_only (h1 h2 : GoString)
    (hl1 : 18 ≤ h1.length) (hl2 : 18 ≤ h2.length)
    (hagree : ∀ i, 2 ≤ i → i ≤ 17 → h1[i]? = h2[i]?) :
    hash2ShortId h1 = hash2ShortId h2 ∧
      ((∃ v : Nat, hash2ShortId h1 = .ok v ∧ hash2ShortId h2 = .ok v) ∨
        ((∃ a : Abort, hash2ShortId h1 = .error a) ∧
          ∃ a : Abort, hash2ShortId h2 = .error a)) := by
  have heq := hash2ShortId_congr_window h1 h2 hl1 hl2 (window_eq_of_agree h1 h2 hagree)
  refine ⟨heq, ?_⟩
  cases h : hash2ShortId h1 with
  | ok v => exact Or.inl ⟨v, rfl, by rw [← heq, h]⟩
  | error a => exact Or.inr ⟨⟨a, rfl⟩, a, by rw [← heq, h]⟩

/-- Example of C14: the sample hash and a string with another prefix and
another tail. -/
theorem hash2ShortId_window_only_witness :
    hash2ShortId sampleTx.Hash = hash2ShortId otherPrefixHash ∧
      hash2ShortId otherPrefixHash = .ok 0xaaaaaaaaaaaaaaaa :=
  ⟨(hash2ShortId_window_only sampleTx.Hash otherPrefixHash (by decide) (by decide)
    (by
      intro i h2 h17
      interval_cases i <;> rfl)).1, by rfl⟩

/-! ## Log mapper: more than four topics -/

/-- C15, as stated, fails: on a log with six topics whose address conversion
panics `newLog` fails: it returns no record. -/
theorem newLog_excess_topics_counterexample :
    newLog failingBase32 (some (sampleLog
        [ascii "0xa0", ascii "0xa1", ascii "0xa2", ascii "0xa3", ascii "0xa4",
          ascii "0xa5"])) = .error .addressPanic ∧
      ¬ ∃ l : log, newLog failingBase32 (some (sampleLog
        [ascii "0xa0", ascii "0xa1", ascii "0xa2", ascii "0xa3", ascii "0xa4",
          ascii "0xa5"])) = .ok l := by
  have h : newLog failingBase32 (some (sampleLog
      [ascii "0xa0", ascii "0xa1", ascii "0xa2", ascii "0xa3", ascii "0xa4",
        ascii "0xa5"])) = .error .addressPanic := by rfl
  refine ⟨h, ?_⟩
  rintro ⟨l, hl⟩
  rw [h] at hl
  cases hl

/-- C15 (amended): for every log with more than 4 topics on whose address
`MustGetBase32Address` does not panic, `newLog` returns a record whose
`Topic0..Topic3` are the string forms of the first four topics in order, and
the same record as for the log cut to its first four topics. -/
theorem newLog_excess_topics {A : Type} (mustGetBase32Address : A → Option GoString)
    (d : Log A) (addr : GoString)
    (haddr : mustGetBase32Address d.Address = some addr)
    (hmore : 4 < d.Topics.length) :
    ∃ l : log, newLog mustGetBase32Address (some d) = .ok l ∧
      [l.Topic0, l.Topic1, l.Topic2, l.Topic3] = (d.Topics.take 4).map Hash.String ∧
      newLog mustGetBase32Address (some { d with Topics := d.Topics.take 4 }) = .ok l := by
  match hts : d.Topics, hmore with
  | t0 :: t1 :: t2 :: t3 :: t4 :: more, _ =>
    refine ⟨_, newLog_eq mustGetBase32Address d addr t0 (t1 :: t2 :: t3 :: t4 :: more)
      haddr hts, by simp [Hash.String], ?_⟩
    exact newLog_eq mustGetBase32Address { d with Topics := [t0, t1, t2, t3] } addr t0
      [t1, t2, t3] haddr rfl

/-- Example of the amended C15: six topics. -/
theorem newLog_excess_topics_witness :
    ∃ l : log,
      newLog sampleBase32 (some (sampleLog
        [ascii "0xa0", ascii "0xa1", ascii "0xa2", ascii "0xa3", ascii "0xa4",
          ascii "0xa5"])) = .ok l ∧
      [l.Topic0, l.Topic1, l.Topic2, l.Topic3] =
        [ascii "0xa0", ascii "0xa1", ascii "0xa2", ascii "0xa3"] ∧
      newLog sampleBase32 (some (sampleLog
        [ascii "0xa0", ascii "0xa1", ascii "0xa2", ascii "0xa3"])) = .ok l :=
  newLog_excess_topics sampleBase32 (sampleLog
    [ascii "0xa0", ascii "0xa1", ascii "0xa2", ascii "0xa3", ascii "0xa4", ascii "0xa5"])
    (sampleLog []).Address (by rfl) (by decide)

/-! ## Short-key derivation: injectivity up to case -/

/-- C16: for any two strings of length at least 18 whose bytes at the
positions 2..17 are hexadecimal digits, `hash2ShortId` returns the same value
for both if and only if their bytes at the positions 2..17 are equal ignoring
the case of the letters a-f. -/
theorem hash2ShortId_eq_iff (h1 h2 : GoString)
    (hl1 : 18 ≤ h1.length) (hl2 : 18 ≤ h2.length)
    (hhex1 : ∀ (i : Nat) (hi : i < h1.length), 2 ≤ i → i ≤ 17 → isHexDigit h1[i] = true)
    (hhex2 : ∀ (i : Nat) (hi : i < h2.length), 2 ≤ i → i ≤ 17 → isHexDigit h2[i] = true) :
    (∃ v : Nat, hash2ShortId h1 = .ok v ∧ hash2ShortId h2 = .ok v) ↔
      (window h1).map lowerHex = (window h2).map lowerHex := by
  have ha1 := window_all_hex h1 hhex1
  have ha2 := window_all_hex h2 hhex2
  have e1 := hash2ShortId_of_window h1 hl1 ha1
  have e2 := hash2ShortId_of_window h2 hl2 ha2
  have hlen : (window h1).length = (window h2).length := by
    rw [window_length h1 hl1, window_length h2 hl2]
  constructor
  · rintro ⟨v, hv1, hv2⟩
    rw [e1] at hv1
    rw [e2] at hv2
    have hval : hexValue (window h1) = hexValue (window h2) :=
      (Except.ok.inj hv1).trans (Except.ok.inj hv2).symm
    exact map_lowerHex_eq_of_values _ _ ha1 ha2
      (foldl_hex_inj (window h1) (window h2) 0 0 hlen hval).2
  · intro hl
    have hval := hexValue_eq_of_values _ _ (map_values_eq_of_lowerHex _ _ ha1 ha2 hl)
    exact ⟨_, e1, by rw [e2, hval]⟩

/-- Example of C16: a hash in upper case shares the key of the sample hash. -/
theorem hash2ShortId_eq_iff_witness :
    ∃ v : Nat, hash2ShortId upperCaseHash = .ok v ∧ hash2ShortId sampleTx.Hash = .ok v :=
  (hash2ShortId_eq_iff upperCaseHash sampleTx.Hash (by decide) (by decide)
    (by
      intro i hi h2 h17
      interval_cases i <;> rfl)
    (by
      intro i hi h2 h17
      interval_cases i <;> rfl)).mpr (by rfl)

/-! ## Loading a transaction by an ill-formed hash -/

/-- C17: `loadTx` called with a hash shorter than 18 bytes, or with a byte
that is no hexadecimal digit at one of the positions 2..17, aborts: it
returns neither a record nor an error value, and it does so whatever the
store holds, the store not being consulted. -/
theorem loadTx_aborts_on_bad_hash (db : DB transaction) (h : GoString)
    (hbad : h.length < 18 ∨
      ∃ (i : Nat) (hi : i < h.length), 2 ≤ i ∧ i ≤ 17 ∧ isHexDigit h[i] = false) :
    (∃ a : Abort, loadTx db h = .error a ∧ ∀ db2 : DB transaction, loadTx db2 h = .error a) ∧
      ∀ res : Option transaction × Option GormError, loadTx db h ≠ .ok res := by
  obtain ⟨a, ha⟩ := hash2ShortId_error_of_bad h hbad
  have key : ∀ db2 : DB transaction, loadTx db2 h = .error a := by
    intro db2
    rw [loadTx_eq, ha]
  refine ⟨⟨a, key db, key⟩, ?_⟩
  intro res hres
  rw [key db] at hres
  cases hres

/-- Example of C17: a hash of 17 bytes, on a store that holds rows. -/
theorem loadTx_aborts_on_bad_hash_witness :
    loadTx (DB.ofRows [collidingRow, sampleRow]) (ascii "0x1234567890abcde")
        = .error .sliceBounds ∧
      ∀ res : Option transaction × Option GormError,
        loadTx (DB.ofRows [collidingRow, sampleRow]) (ascii "0x1234567890abcde") ≠ .ok res :=
  ⟨by rfl, (loadTx_aborts_on_bad_hash (DB.ofRows [collidingRow, sampleRow])
    (ascii "0x1234567890abcde") (Or.inl (by decide))).2⟩

end Confura
